import Mathlib

set_option maxHeartbeats 1000000

/-!
Shallow embedding of the commit-pinned template content cache of
vintasend-ts-dashboard: the path resolver
(src/lib/notifications/template-path-resolver.ts), the repository
reference normalizer
(src/lib/notifications/github-template-preview-config.ts) and the
GitHubTemplateClient (fetch, bounded insertion-order cache, error
classification).  JavaScript strings are modelled as Lean String,
the JS Map as an insertion-ordered association list, fetch as a pure
function from the request URL to a response record, and promise
rejection as Except String.  Node/Web builtins used by the source
(String.trim, Buffer base64/utf8 decoding, encodeURIComponent, the
WHATWG URL parser, Headers.get) are modelled explicitly below,
faithful to their specified behaviour on the aspects the code relies
on.
-/

/-- Whitespace per JavaScript's \s character class / String.prototype.trim
(ASCII whitespace, NBSP, BOM and the Unicode space separators). -/
def jsWhitespace (c : Char) : Bool :=
  let n := c.toNat
  n = 0x20 || n = 0x09 || n = 0x0A || n = 0x0D || n = 0x0B || n = 0x0C ||
  n = 0xA0 || n = 0x1680 || (0x2000 ≤ n && n ≤ 0x200A) || n = 0x2028 || n = 0x2029 ||
  n = 0x202F || n = 0x205F || n = 0x3000 || n = 0xFEFF

/-- Model of JavaScript String.prototype.trim. -/
def jsTrim (s : String) : String :=
  String.mk (((s.toList.dropWhile jsWhitespace).reverse.dropWhile jsWhitespace).reverse)

/-- Model of JS truthiness of an optional string field: undefined and the
empty string are falsy, every other string is truthy. -/
def jsTruthy : Option String → Bool
  | none => false
  | some s => s != ""

/-- Bool test for a substring occurrence (used to state the
"message contains ..." clauses of the spec). -/
def strContains (s pat : String) : Bool :=
  (List.range (s.toList.length + 1)).any (fun i => pat.toList.isPrefixOf (s.toList.drop i))

/-- Bool test for the trailing ".git" the normalizer strips. -/
def endsWithDotGit (s : String) : Bool :=
  ['.', 'g', 'i', 't'].isSuffixOf s.toList

/-- Model of `s.replace(/\.git$/, '')`. -/
def stripTrailingDotGit (s : String) : String :=
  if endsWithDotGit s then String.mk (s.toList.take (s.toList.length - 4)) else s

/-! ## Path resolver (src/lib/notifications/template-path-resolver.ts) -/

/-- Source `trimPathEdges`: `path.replace(/^\/+|\/+$/g, '')` — strip leading
and trailing slashes. -/
def trimPathEdges (path : String) : String :=
  String.mk (((path.toList.dropWhile (fun c => c == '/')).reverse.dropWhile
    (fun c => c == '/')).reverse)

/-- The `cleanedBasePath` computation of `resolveTemplatePath`: the JS
truthiness test `options.templatesBasePath ?` makes `some ""` behave like an
absent base path. -/
def cleanedBasePathOf (templatesBasePath : Option String) : String :=
  match templatesBasePath with
  | none => ""
  | some b => if b = "" then "" else trimPathEdges (jsTrim b)

/-- Source `resolveTemplatePath`; the thrown Error is modelled as `.error`
carrying the message. -/
def resolveTemplatePath (templatePath : String) (templatesBasePath : Option String) :
    Except String String :=
  let cleanedTemplatePath := trimPathEdges (jsTrim templatePath)
  if cleanedTemplatePath = "" then
    .error ("Template path is required for preview rendering.")
  else
    let cleanedBasePath := cleanedBasePathOf templatesBasePath
    if cleanedBasePath = "" then .ok cleanedTemplatePath
    else .ok (cleanedBasePath ++ "/" ++ cleanedTemplatePath)

/-! ## Node Buffer base64 → utf8 decoding (model of
`Buffer.from(s, 'base64').toString('utf8')`). -/

/-- Value of one base64 alphabet character; invalid characters (including
padding and whitespace) are ignored by Node's forgiving decoder. -/
def b64Val (c : Char) : Option Nat :=
  if 'A' ≤ c ∧ c ≤ 'Z' then some (c.toNat - 65)
  else if 'a' ≤ c ∧ c ≤ 'z' then some (c.toNat - 97 + 26)
  else if '0' ≤ c ∧ c ≤ '9' then some (c.toNat - 48 + 52)
  else if c = '+' then some 62
  else if c = '/' then some 63
  else none

/-- Bit-accumulating conversion of base64 sextets to bytes; a trailing group
of fewer than 8 bits is discarded, as in standard base64 decoding. -/
def b64SextetsToBytes : List Nat → Nat → Nat → List Nat
  | [], _, _ => []
  | v :: rest, acc, bits =>
    let acc2 := acc * 64 + v
    let bits2 := bits + 6
    if 8 ≤ bits2 then
      acc2 / 2 ^ (bits2 - 8) % 256 :: b64SextetsToBytes rest (acc2 % 2 ^ (bits2 - 8)) (bits2 - 8)
    else
      b64SextetsToBytes rest acc2 bits2

/-- Base64 text to bytes. -/
def base64ToBytes (s : String) : List Nat :=
  b64SextetsToBytes (s.toList.filterMap b64Val) 0 0

/-- The U+FFFD replacement character emitted for invalid UTF-8 input. -/
def replacementChar : Char := Char.ofNat 0xFFFD

/-- Code point to Char, replacing surrogates and out-of-range values. -/
def charFromCodePoint (cp : Nat) : Char :=
  if 0xD800 ≤ cp ∧ cp < 0xE000 then replacementChar
  else if 0x110000 ≤ cp then replacementChar
  else Char.ofNat cp

/-- Continuation byte test. -/
def utf8Cont (b : Nat) : Bool := 0x80 ≤ b && b < 0xC0

/-- WHATWG-style UTF-8 decoding of a byte list, invalid sequences becoming
U+FFFD, as Node's Buffer.toString('utf8') does.  The first argument is
recursion fuel so the definition is structurally recursive (and hence
kernel-computable); every round consumes at least one byte, so fuel equal to
the list length, as supplied by `utf8DecodeBytes`, is never exhausted. -/
def utf8DecodeFuel : Nat → List Nat → List Char
  | _, [] => []
  | 0, _ :: _ => []
  | fuel + 1, b :: rest =>
    if b < 0x80 then Char.ofNat b :: utf8DecodeFuel fuel rest
    else if b < 0xC0 then replacementChar :: utf8DecodeFuel fuel rest
    else if b < 0xE0 then
      match rest with
      | b1 :: rest1 =>
        if utf8Cont b1 then
          let cp := (b - 0xC0) * 64 + (b1 - 0x80)
          (if cp < 0x80 then replacementChar else charFromCodePoint cp) ::
            utf8DecodeFuel fuel rest1
        else replacementChar :: utf8DecodeFuel fuel rest
      | [] => [replacementChar]
    else if b < 0xF0 then
      match rest with
      | b1 :: b2 :: rest2 =>
        if utf8Cont b1 && utf8Cont b2 then
          let cp := (b - 0xE0) * 4096 + (b1 - 0x80) * 64 + (b2 - 0x80)
          (if cp < 0x800 then replacementChar else charFromCodePoint cp) ::
            utf8DecodeFuel fuel rest2
        else replacementChar :: utf8DecodeFuel fuel rest
      | _ => [replacementChar]
    else if b < 0xF8 then
      match rest with
      | b1 :: b2 :: b3 :: rest3 =>
        if utf8Cont b1 && utf8Cont b2 && utf8Cont b3 then
          let cp := (b - 0xF0) * 262144 + (b1 - 0x80) * 4096 + (b2 - 0x80) * 64 + (b3 - 0x80)
          (if cp < 0x10000 ∨ 0x10FFFF < cp then replacementChar else charFromCodePoint cp) ::
            utf8DecodeFuel fuel rest3
        else replacementChar :: utf8DecodeFuel fuel rest
      | _ => [replacementChar]
    else replacementChar :: utf8DecodeFuel fuel rest

/-- UTF-8 decoding of a byte list. -/
def utf8DecodeBytes (l : List Nat) : List Char :=
  utf8DecodeFuel l.length l

/-- Model of `Buffer.from(s, 'base64').toString('utf8')`. -/
def decodeBase64Utf8 (s : String) : String :=
  String.mk (utf8DecodeBytes (base64ToBytes s))

/-- Model of `s.replace(/\n/g, '')`. -/
def stripNewlines (s : String) : String :=
  String.mk (s.toList.filter (fun c => c != '\n'))

/-! ## The bounded content cache (the `Map<string, string>` field of
GitHubTemplateClient, src/unnamed/part_001).  A JS Map iterates in
insertion order; it is modelled as an association list, oldest entry
first. -/

/-- Model of `Map.prototype.get`. -/
def mapGet (cache : List (String × String)) (key : String) : Option String :=
  (cache.find? (fun p => p.1 == key)).map (fun p => p.2)

/-- Model of `Map.prototype.has`. -/
def mapHas (cache : List (String × String)) (key : String) : Bool :=
  cache.any (fun p => p.1 == key)

/-- Model of `Map.prototype.delete` (keys are unique in a Map, so removing
every pair with the key coincides with removing the single entry). -/
def mapDelete (cache : List (String × String)) (key : String) : List (String × String) :=
  cache.filter (fun p => p.1 != key)

/-- The `while (this.cache.size > this.cacheMaxEntries)` loop of `setCache`:
delete the first (oldest) key each round; `if (!firstKey) break` stops on a
missing first key — and, by JS truthiness, also on an empty-string key.
Deleting the first key removes at least the head, so every round shrinks the
list: fuel equal to the list length, as supplied by `evictLoop`, is never
exhausted, and the structural fuel recursion computes the while loop
exactly. -/
def evictLoopFuel (cacheMaxEntries : Nat) : Nat → List (String × String) → List (String × String)
  | _, [] => []
  | 0, p :: rest => p :: rest
  | fuel + 1, (firstKey, v) :: rest =>
    if cacheMaxEntries < ((firstKey, v) :: rest).length then
      if firstKey = "" then (firstKey, v) :: rest
      else evictLoopFuel cacheMaxEntries fuel (mapDelete rest firstKey)
    else (firstKey, v) :: rest

/-- The eviction loop of `setCache`. -/
def evictLoop (cacheMaxEntries : Nat) (cache : List (String × String)) :
    List (String × String) :=
  evictLoopFuel cacheMaxEntries cache.length cache

/-- Source `GitHubTemplateClient.setCache`: delete an existing entry first
(so the key is re-inserted as newest), insert, then evict while over
capacity. -/
def setCache (cacheMaxEntries : Nat) (cache : List (String × String))
    (key value : String) : List (String × String) :=
  evictLoop cacheMaxEntries
    ((if mapHas cache key then mapDelete cache key else cache) ++ [(key, value)])

/-- Folding a list of set operations over the cache. -/
def applySetList (cacheMaxEntries : Nat) (cache : List (String × String))
    (ops : List (String × String)) : List (String × String) :=
  ops.foldl (fun c p => setCache cacheMaxEntries c p.1 p.2) cache

/-- A get or set operation on the cache. -/
inductive CacheOp where
  | set (key value : String)
  | get (key : String)
deriving DecidableEq

/-- Key of an operation. -/
def CacheOp.key : CacheOp → String
  | .set k _ => k
  | .get k => k

/-- Whether an operation is a set. -/
def CacheOp.isSet : CacheOp → Bool
  | .set _ _ => true
  | .get _ => false

/-- State effect of one operation: `Map.prototype.get` does not mutate the
map (it is not an access-ordered LRU), `set` goes through `setCache`. -/
def cacheOpApply (cacheMaxEntries : Nat) (cache : List (String × String)) :
    CacheOp → List (String × String)
  | .set k v => setCache cacheMaxEntries cache k v
  | .get _ => cache

/-- Running a sequence of cache operations. -/
def runCacheOps (cacheMaxEntries : Nat) (cache : List (String × String))
    (ops : List CacheOp) : List (String × String) :=
  ops.foldl (cacheOpApply cacheMaxEntries) cache

/-! ## Percent-encoding helpers (models of encodeURIComponent and of the
WHATWG URL path serializer used via `new URL`). -/

/-- UTF-8 bytes of a character. -/
def utf8Bytes (c : Char) : List Nat :=
  let n := c.toNat
  if n < 0x80 then [n]
  else if n < 0x800 then [0xC0 + n / 64, 0x80 + n % 64]
  else if n < 0x10000 then [0xE0 + n / 4096, 0x80 + n / 64 % 64, 0x80 + n % 64]
  else [0xF0 + n / 262144, 0x80 + n / 4096 % 64, 0x80 + n / 64 % 64, 0x80 + n % 64]

/-- Uppercase hex digit of a value below 16. -/
def hexDigit (n : Nat) : Char :=
  if n < 10 then Char.ofNat (48 + n) else Char.ofNat (55 + n)

/-- Percent-encoding of one byte, as a character list. -/
def percentEncodeByte (b : Nat) : List Char :=
  ['%', hexDigit (b / 16), hexDigit (b % 16)]

/-- Characters encodeURIComponent leaves unescaped. -/
def uriUnreserved (c : Char) : Bool :=
  c.isAlphanum || c == '-' || c == '_' || c == '.' || c == '!' || c == '~' ||
  c == '*' || c == '\'' || c == '(' || c == ')'

/-- Model of JavaScript encodeURIComponent. -/
def encodeURIComponent (s : String) : String :=
  String.mk (s.toList.flatMap (fun c =>
    if uriUnreserved c then [c] else (utf8Bytes c).flatMap percentEncodeByte))

/-! ## GitHubTemplateClient (src/unnamed/part_001).  The class fields become
explicit parameters: the config, the injected fetcher (a pure function from
the request URL to the response — headers, method and transport cache mode
do not influence the modelled responses), the capacity
`cacheMaxEntries` (`options.cacheMaxEntries ?? 100`) and the current cache
contents, threaded in and out of each call. -/

/-- Source `GitHubTemplatePreviewConfig`. -/
structure GitHubTemplatePreviewConfig where
  repo : String
  apiKey : String
  apiBaseUrl : String
  templatesBasePath : Option String := none

/-- Source `TemplateContentRequest`. -/
structure TemplateContentRequest where
  templatePath : String
  gitCommitSha : String

/-- Parsed JSON body of a response, restricted to the fields the client
reads (`GitHubFileContentResponse` and `GitHubCommitResponse` merged). -/
structure ResponseBody where
  content : Option String := none
  encoding : Option String := none
  sha : Option String := none
  message : Option String := none
deriving DecidableEq

/-- A fetch Response as the client observes it: `ok`, `status`, the header
map, and the JSON body (`none` when `response.json()` would reject). -/
structure HttpResponse where
  ok : Bool
  status : Nat
  headers : List (String × String) := []
  body : Option ResponseBody := none

/-- ASCII lowercasing of a header name (kernel-computable model of
String.toLower). -/
def lowerAscii (s : String) : String :=
  String.mk (s.toList.map Char.toLower)

/-- Model of `Headers.prototype.get` (header names are case-insensitive). -/
def headersGet (headers : List (String × String)) (name : String) : Option String :=
  (headers.find? (fun p => lowerAscii p.1 == lowerAscii name)).map (fun p => p.2)

/-- Source `buildCacheKey`. -/
def buildCacheKey (config : GitHubTemplatePreviewConfig) (path gitCommitSha : String) :
    String :=
  config.repo ++ ":" ++ path ++ ":" ++ gitCommitSha

/-- Source `buildApiUrl`. -/
def buildApiUrl (config : GitHubTemplatePreviewConfig) (path gitCommitSha : String) :
    String :=
  let encodedPath := String.intercalate "/" ((path.splitOn "/").map encodeURIComponent)
  let refParam := encodeURIComponent gitCommitSha
  config.apiBaseUrl ++ "/repos/" ++ config.repo ++ "/contents/" ++ encodedPath ++
    "?ref=" ++ refParam

/-- Optional `: <message>` suffix for generic errors; `if (body.message)` is
a JS truthiness test, and an unparseable body (`none`) is swallowed by the
try/catch, leaving the suffix empty. -/
def messageSuffix (body : Option ResponseBody) : String :=
  match body with
  | some b =>
    match b.message with
    | some m => if m = "" then "" else ": " ++ m
    | none => ""
  | none => ""

/-- Source `buildHttpError` (message of the returned Error). -/
def buildHttpError (response : HttpResponse) : String :=
  if response.status = 404 then
    "Template file was not found in GitHub for the requested commit."
  else if response.status = 403 then
    if headersGet response.headers ("x-ratelimit-remaining") = some ("0") then
      "GitHub API rate limit exceeded while fetching template preview."
    else
      "GitHub API request was forbidden. Check repository access and token permissions."
  else if response.status = 429 then
    "GitHub API rate limit exceeded while fetching template preview."
  else
    "GitHub template fetch failed with status " ++ toString response.status ++
      messageSuffix response.body

/-- Source `buildCommitLookupHttpError` (message of the returned Error). -/
def buildCommitLookupHttpError (response : HttpResponse) : String :=
  if response.status = 404 then
    "Unable to resolve latest commit SHA from the main branch."
  else if response.status = 403 then
    if headersGet response.headers ("x-ratelimit-remaining") = some ("0") then
      "GitHub API rate limit exceeded while fetching template preview."
    else
      "GitHub API request was forbidden. Check repository access and token permissions."
  else if response.status = 429 then
    "GitHub API rate limit exceeded while fetching template preview."
  else
    "GitHub main branch commit lookup failed with status " ++ toString response.status ++
      messageSuffix response.body

deriving instance DecidableEq for Except

/-- Outcome of one `getTemplateContentByCommit` call: the cache afterwards,
how many network requests were issued, and the settled promise (`.error` is
rejection with the Error's message). -/
structure FetchOutcome where
  cache : List (String × String)
  networkCalls : Nat
  result : Except String String
deriving DecidableEq

/-- Source `getTemplateContentByCommit`.  The console.info diagnostic has no
effect on state or result and is not modelled.  A response whose body is not
JSON makes `await response.json()` reject on the success path; its runtime
parse-error message is abstracted as a fixed string. -/
def getTemplateContentByCommit (config : GitHubTemplatePreviewConfig)
    (fetcher : String → HttpResponse) (cacheMaxEntries : Nat)
    (cache : List (String × String)) (request : TemplateContentRequest) : FetchOutcome :=
  match resolveTemplatePath request.templatePath config.templatesBasePath with
  | .error e => ⟨cache, 0, .error e⟩
  | .ok resolvedPath =>
    let cacheKey := buildCacheKey config resolvedPath request.gitCommitSha
    match mapGet cache cacheKey with
    | some fromCache => ⟨cache, 0, .ok fromCache⟩
    | none =>
      let response := fetcher (buildApiUrl config resolvedPath request.gitCommitSha)
      if !response.ok then
        ⟨cache, 1, .error (buildHttpError response)⟩
      else
        match response.body with
        | none => ⟨cache, 1, .error ("Unexpected end of JSON input")⟩
        | some payload =>
          if !(jsTruthy payload.content) || payload.encoding != some ("base64") then
            ⟨cache, 1, .error ("GitHub template response is invalid or unsupported.")⟩
          else
            let decoded := decodeBase64Utf8 (stripNewlines (payload.content.getD (""))) 
            ⟨setCache cacheMaxEntries cache cacheKey decoded, 1, .ok decoded⟩

/-- Outcome of one `getLatestMainCommitSha` call.  The method never touches
the cache field, so the cache is passed through unchanged. -/
structure ShaOutcome where
  cache : List (String × String)
  networkCalls : Nat
  result : Except String String
deriving DecidableEq

/-- Source `getLatestMainCommitSha`; `if (!payload.sha)` is a JS truthiness
test. -/
def getLatestMainCommitSha (config : GitHubTemplatePreviewConfig)
    (fetcher : String → HttpResponse) (cache : List (String × String)) : ShaOutcome :=
  let apiUrl := config.apiBaseUrl ++ "/repos/" ++ config.repo ++ "/commits/main"
  let response := fetcher apiUrl
  if !response.ok then
    ⟨cache, 1, .error (buildCommitLookupHttpError response)⟩
  else
    match response.body with
    | none => ⟨cache, 1, .error ("Unexpected end of JSON input")⟩
    | some payload =>
      if !(jsTruthy payload.sha) then
        ⟨cache, 1, .error ("GitHub main branch commit lookup returned an invalid response.")⟩
      else
        ⟨cache, 1, .ok (payload.sha.getD (""))⟩

/-! ## Repository reference normalizer
(src/lib/notifications/github-template-preview-config.ts, `normalizeRepo`).
The `new URL(...)` branch needs a model of the WHATWG URL parser; only the
aspects `normalizeRepo` observes are modelled: tab/newline stripping, the
special-scheme slash skipping before the authority, an error on an empty
authority, backslash-as-slash in the path, the path ending at '?' or '#',
and percent-encoding of controls, space, DEL and non-ASCII characters in
path segments (dot-segment normalization is omitted; it never introduces a
slash or whitespace into a segment). -/

/-- Test for `/^https?:\/\//i`. -/
def hasHttpPrefix (s : String) : Bool :=
  let l := (s.toList.take 8).map Char.toLower
  l.take 7 = ['h', 't', 't', 'p', ':', '/', '/'] ||
  l = ['h', 't', 't', 'p', 's', ':', '/', '/']

/-- WHATWG URL parsing strips all ASCII tab, LF and CR before parsing. -/
def stripTabsAndNewlines (s : String) : String :=
  String.mk (s.toList.filter (fun c => c != '\t' && c != '\n' && c != '\r'))

/-- Split a character list on '/'; mirrors `String.prototype.split('/')`.
The inner `[]` case is unreachable (the split of any list is non-empty). -/
def splitOnSlash : List Char → List (List Char)
  | [] => [[]]
  | c :: rest =>
    if c = '/' then [] :: splitOnSlash rest
    else
      match splitOnSlash rest with
      | [] => [[c]]
      | seg :: segs => (c :: seg) :: segs

/-- Serialization of one path character by the WHATWG path serializer:
controls, space, DEL and non-ASCII characters are percent-encoded (the
serializer encodes a few more ASCII punctuation characters; those never
introduce a slash or whitespace, the aspects the proofs rely on). -/
def urlPathChar (c : Char) : List Char :=
  if c.toNat ≤ 0x20 || c.toNat = 0x7F || 0x80 ≤ c.toNat then
    (utf8Bytes c).flatMap percentEncodeByte
  else [c]

/-- Non-empty, percent-encoded path segments of an http(s) URL, or `none`
when `new URL` would throw; mirrors
`new URL(s).pathname.split('/').filter(Boolean)`. -/
def urlPathSegments (url : String) : Option (List String) :=
  let cleaned := (stripTabsAndNewlines url).toList
  let afterScheme := (cleaned.dropWhile (fun c => c != ':')).drop 1
  let afterSlashes := afterScheme.dropWhile (fun c => c == '/' || c == '\\')
  let authority := afterSlashes.takeWhile
    (fun c => c != '/' && c != '\\' && c != '?' && c != '#')
  if authority.isEmpty then none
  else
    let rest := afterSlashes.drop authority.length
    let path := rest.takeWhile (fun c => c != '?' && c != '#')
    let pathSlashed := path.map (fun c => if c = '\\' then '/' else c)
    some (((splitOnSlash pathSlashed).filter (fun seg => !seg.isEmpty)).map
      (fun seg => String.mk (seg.flatMap urlPathChar)))

/-- Match of `/^git@[^:]+:([^/\s]+)\/([^/\s]+)$/`: the colon consumed is
necessarily the first one after `git@`, and the slash between the groups is
necessarily the first slash after that colon, since neither class admits
them; no backtracking can succeed otherwise. -/
def sshMatchParse (s : String) : Option (String × String) :=
  let cs := s.toList
  if cs.take 4 = ['g', 'i', 't', '@'] then
    let afterAt := cs.drop 4
    let hostPart := afterAt.takeWhile (fun c => c != ':')
    if hostPart.isEmpty then none
    else
      match afterAt.drop hostPart.length with
      | ':' :: rest =>
        let g1 := rest.takeWhile (fun c => c != '/')
        if g1.isEmpty || g1.any jsWhitespace then none
        else
          match rest.drop g1.length with
          | '/' :: g2 =>
            if g2.isEmpty || g2.any (fun c => c == '/' || jsWhitespace c) then none
            else some (String.mk g1, String.mk g2)
          | _ => none
      | _ => none
  else none

/-- Match of `/^([^/\s]+)\/([^/\s]+)$/` (the owner/name shorthand). -/
def directMatchParse (s : String) : Option (String × String) :=
  let cs := s.toList
  let g1 := cs.takeWhile (fun c => c != '/')
  if g1.isEmpty || g1.any jsWhitespace then none
  else
    match cs.drop g1.length with
    | '/' :: g2 =>
      if g2.isEmpty || g2.any (fun c => c == '/' || jsWhitespace c) then none
      else some (String.mk g1, String.mk g2)
    | _ => none

/-- Source `normalizeRepo`; thrown Errors are modelled as `.error` carrying
the message. -/
def normalizeRepo (repo : String) : Except String String :=
  let trimmedRepo := stripTrailingDotGit (jsTrim repo)
  if hasHttpPrefix trimmedRepo then
    match urlPathSegments trimmedRepo with
    | none => .error ("GITHUB_REPO must be a valid GitHub repository URL or owner/repo.")
    | some segments =>
      match segments with
      | owner :: name :: _ => .ok (owner ++ "/" ++ name)
      | _ => .error ("GITHUB_REPO URL must include owner and repository name.")
  else
    match sshMatchParse trimmedRepo with
    | some (owner, repoName) => .ok (owner ++ "/" ++ stripTrailingDotGit repoName)
    | none =>
      match directMatchParse trimmedRepo with
      | some (owner, name) => .ok (owner ++ "/" ++ name)
      | none =>
        .error ("GITHUB_REPO is required in owner/repo format or as a GitHub repository URL.")

/-! ## Lemmas about the bounded cache -/

theorem mapDelete_sublist (l : List (String × String)) (k : String) :
    (mapDelete l k).Sublist l :=
  List.filter_sublist l

theorem mapDelete_eq_self (l : List (String × String)) (k : String)
    (h : k ∉ l.map Prod.fst) : mapDelete l k = l := by
  rw [mapDelete, List.filter_eq_self]
  intro p hp
  simp only [bne_iff_ne, ne_eq]
  intro hpk
  exact h (hpk ▸ List.mem_map_of_mem Prod.fst hp)

theorem mapHas_iff (l : List (String × String)) (k : String) :
    mapHas l k = true ↔ k ∈ l.map Prod.fst := by
  simp [mapHas, List.any_eq_true, List.mem_map]

theorem mapDelete_length_lt (l : List (String × String)) (k : String)
    (h : mapHas l k = true) : (mapDelete l k).length < l.length := by
  induction l with
  | nil => simp [mapHas] at h
  | cons p rest ih =>
    by_cases hpk : p.1 = k
    · have : mapDelete (p :: rest) k = mapDelete rest k := by
        simp [mapDelete, List.filter_cons, hpk]
      rw [this]
      exact Nat.lt_succ_of_le (List.length_filter_le _ _)
    · have hhas : mapHas rest k = true := by
        simp only [mapHas, List.any_cons, Bool.or_eq_true, beq_iff_eq] at h
        rcases h with h | h
        · exact absurd h hpk
        · exact h
      have : mapDelete (p :: rest) k = p :: mapDelete rest k := by
        simp [mapDelete, List.filter_cons, hpk]
      rw [this]
      simpa using ih hhas

theorem mapGet_eq_none (l : List (String × String)) (k : String)
    (h : k ∉ l.map Prod.fst) : mapGet l k = none := by
  have : l.find? (fun p => p.1 == k) = none := by
    rw [List.find?_eq_none]
    intro p hp
    simp only [beq_iff_eq]
    intro hpk
    exact h (hpk ▸ List.mem_map_of_mem Prod.fst hp)
  simp [mapGet, this]

theorem mapGet_cons_self (l : List (String × String)) (k v : String) :
    mapGet ((k, v) :: l) k = some v := by
  simp [mapGet, List.find?_cons_of_pos]

theorem mapGet_of_mem_nodup (l : List (String × String)) (k v : String)
    (hnd : (l.map Prod.fst).Nodup) (hm : (k, v) ∈ l) : mapGet l k = some v := by
  induction l with
  | nil => simp at hm
  | cons p rest ih =>
    simp only [List.map_cons, List.nodup_cons] at hnd
    rcases List.mem_cons.mp hm with heq | hmem
    · rw [← heq]
      exact mapGet_cons_self rest k v
    · have hne : p.1 ≠ k := by
        intro hpk
        exact hnd.1 (hpk ▸ List.mem_map_of_mem Prod.fst hmem)
    
      have : mapGet (p :: rest) k = mapGet rest k := by
        simp [mapGet, List.find?_cons_of_neg, hne]
      rw [this]
      exact ih hnd.2 hmem

theorem evictLoopFuel_sublist (m fuel : Nat) (l : List (String × String)) :
    (evictLoopFuel m fuel l).Sublist l := by
  induction fuel generalizing l with
  | zero => cases l <;> simp [evictLoopFuel]
  | succ fuel ih =>
    cases l with
    | nil => simp [evictLoopFuel]
    | cons p rest =>
      obtain ⟨k, v⟩ := p
      rw [evictLoopFuel]
      split
      · split
        · exact List.Sublist.refl _
        · exact ((ih _).trans (mapDelete_sublist rest k)).trans (List.sublist_cons_self _ _)
      · exact List.Sublist.refl _

theorem evictLoopFuel_of_length_le (m fuel : Nat) (l : List (String × String))
    (h : l.length ≤ m) : evictLoopFuel m fuel l = l := by
  cases fuel with
  | zero => cases l <;> rfl
  | succ fuel =>
    cases l with
    | nil => rfl
    | cons p rest =>
      obtain ⟨k, v⟩ := p
      rw [evictLoopFuel, if_neg (Nat.not_lt.mpr h)]

theorem evictLoopFuel_length_le (m fuel : Nat) (l : List (String × String))
    (hk : ∀ p ∈ l, p.1 ≠ "") (hf : l.length ≤ fuel) :
    (evictLoopFuel m fuel l).length ≤ m := by
  induction fuel generalizing l with
  | zero =>
    have : l = [] := List.length_eq_zero.mp (Nat.le_zero.mp hf)
    simp [this, evictLoopFuel]
  | succ fuel ih =>
    cases l with
    | nil => simp [evictLoopFuel]
    | cons p rest =>
      obtain ⟨k, v⟩ := p
      rw [evictLoopFuel]
      split
      next hlt =>
        rw [if_neg (hk (k, v) (List.mem_cons_self _ _))]
        refine ih (mapDelete rest k) ?_ ?_
        · intro p hp
          exact hk p (List.mem_cons_of_mem _ ((mapDelete_sublist rest k).subset hp))
        · have := List.length_filter_le (fun p => p.1 != k) rest
          simp only [List.length_cons] at hf
          exact le_trans this (Nat.lt_succ_iff.mp (Nat.lt_of_lt_of_le (Nat.lt_succ_self _) hf))
      next hlt => exact Nat.not_lt.mp hlt

theorem evictLoopFuel_eq_drop (m fuel : Nat) (l : List (String × String))
    (hnd : (l.map Prod.fst).Nodup) (hk : ∀ p ∈ l, p.1 ≠ "") (hf : l.length ≤ fuel) :
    evictLoopFuel m fuel l = l.drop (l.length - m) := by
  induction fuel generalizing l with
  | zero =>
    have : l = [] := List.length_eq_zero.mp (Nat.le_zero.mp hf)
    simp [this, evictLoopFuel]
  | succ fuel ih =>
    cases l with
    | nil => simp [evictLoopFuel]
    | cons p rest =>
      obtain ⟨k, v⟩ := p
      rw [evictLoopFuel]
      split
      next hlt =>
        rw [if_neg (hk (k, v) (List.mem_cons_self _ _))]
        simp only [List.map_cons, List.nodup_cons] at hnd
        have hdel : mapDelete rest k = rest := mapDelete_eq_self rest k hnd.1
        rw [hdel]
        have hrest : evictLoopFuel m fuel rest = rest.drop (rest.length - m) := by
          refine ih rest hnd.2 ?_ ?_
          · intro p hp
            exact hk p (List.mem_cons_of_mem _ hp)
          · simp only [List.length_cons] at hf
            omega
        rw [hrest]
        simp only [List.length_cons] at hlt ⊢
        have harith : rest.length + 1 - m = (rest.length - m) + 1 := by omega
        rw [harith, List.drop_succ_cons]
      next hlt =>
        simp only [List.length_cons] at hlt ⊢
        have : rest.length + 1 - m = 0 := by omega
        rw [this, List.drop_zero]

theorem evictLoop_of_length_le (m : Nat) (l : List (String × String))
    (h : l.length ≤ m) : evictLoop m l = l :=
  evictLoopFuel_of_length_le m l.length l h

theorem evictLoop_sublist (m : Nat) (l : List (String × String)) :
    (evictLoop m l).Sublist l :=
  evictLoopFuel_sublist m l.length l

theorem evictLoop_length_le (m : Nat) (l : List (String × String))
    (hk : ∀ p ∈ l, p.1 ≠ "") : (evictLoop m l).length ≤ m :=
  evictLoopFuel_length_le m l.length l hk (Nat.le_refl _)

theorem evictLoop_eq_drop (m : Nat) (l : List (String × String))
    (hnd : (l.map Prod.fst).Nodup) (hk : ∀ p ∈ l, p.1 ≠ "") :
    evictLoop m l = l.drop (l.length - m) :=
  evictLoopFuel_eq_drop m l.length l hnd hk (Nat.le_refl _)

theorem setCache_keys_ne (m : Nat) (cache : List (String × String)) (k v : String)
    (h : ∀ p ∈ cache, p.1 ≠ "") (hk : k ≠ "") :
    ∀ p ∈ setCache m cache k v, p.1 ≠ "" := by
  intro p hp
  rw [setCache] at hp
  have hp2 := (evictLoop_sublist m _).subset hp
  rcases List.mem_append.mp hp2 with hmem | hmem
  · split at hmem
    · exact h p ((mapDelete_sublist cache k).subset hmem)
    · exact h p hmem
  · simp only [List.mem_singleton] at hmem
    rw [hmem]
    exact hk

theorem setCache_length_le (m : Nat) (cache : List (String × String)) (k v : String)
    (h : ∀ p ∈ cache, p.1 ≠ "") (hk : k ≠ "") :
    (setCache m cache k v).length ≤ m := by
  rw [setCache]
  apply evictLoop_length_le
  intro p hp
  rcases List.mem_append.mp hp with hmem | hmem
  · split at hmem
    · exact h p ((mapDelete_sublist cache k).subset hmem)
    · exact h p hmem
  · simp only [List.mem_singleton] at hmem
    rw [hmem]
    exact hk

theorem setCache_fresh (m : Nat) (cache : List (String × String)) (k v : String)
    (hknotin : k ∉ cache.map Prod.fst) (hlen : cache.length + 1 ≤ m) :
    setCache m cache k v = cache ++ [(k, v)] := by
  rw [setCache, if_neg (fun hh => hknotin ((mapHas_iff cache k).mp hh))]
  apply evictLoop_of_length_le
  simp only [List.length_append, List.length_cons, List.length_nil]
  omega

theorem runCacheOps_append (m : Nat) (cache : List (String × String))
    (ops1 ops2 : List CacheOp) :
    runCacheOps m cache (ops1 ++ ops2) = runCacheOps m (runCacheOps m cache ops1) ops2 :=
  List.foldl_append _ _ _ _

theorem applySetList_append (m : Nat) (cache : List (String × String))
    (ops1 ops2 : List (String × String)) :
    applySetList m cache (ops1 ++ ops2) = applySetList m (applySetList m cache ops1) ops2 :=
  List.foldl_append _ _ _ _

theorem runCacheOps_keys_ne (m : Nat) (ops : List CacheOp) (cache : List (String × String))
    (h : ∀ p ∈ cache, p.1 ≠ "") (hops : ∀ op ∈ ops, op.key ≠ "") :
    ∀ p ∈ runCacheOps m cache ops, p.1 ≠ "" := by
  induction ops generalizing cache with
  | nil => exact h
  | cons op rest ih =>
    cases op with
    | set k v =>
      refine ih (setCache m cache k v)
        (setCache_keys_ne m cache k v h (hops _ (List.mem_cons_self _ _))) ?_
      intro o ho
      exact hops o (List.mem_cons_of_mem _ ho)
    | get k =>
      refine ih cache h ?_
      intro o ho
      exact hops o (List.mem_cons_of_mem _ ho)

theorem applySetList_fresh (m : Nat) (ops : List (String × String)) :
    ∀ (cache : List (String × String)),
    ((cache ++ ops).map Prod.fst).Nodup → cache.length + ops.length ≤ m →
    applySetList m cache ops = cache ++ ops := by
  induction ops with
  | nil => intro cache _ _; simp [applySetList]
  | cons p rest ih =>
    intro cache hnd hlen
    obtain ⟨k, v⟩ := p
    have hnd2 := hnd
    rw [List.map_append] at hnd2
    have hdisj := (List.nodup_append.mp hnd2).2.2
    have hk2 : k ∈ ((k, v) :: rest).map Prod.fst := by simp
    have hknotin : k ∉ cache.map Prod.fst := fun hkin => hdisj hkin hk2
    have hstep : setCache m cache k v = cache ++ [(k, v)] := by
      apply setCache_fresh m cache k v hknotin
      simp only [List.length_cons] at hlen
      omega
    show applySetList m (setCache m cache k v) rest = _
    rw [hstep]
    rw [ih (cache ++ [(k, v)]) ?hnd ?hlen]
    · simp
    case hnd => simpa [List.append_assoc] using hnd
    case hlen =>
      simp only [List.length_append, List.length_cons, List.length_nil] at hlen ⊢
      omega

/-! ## Claims C2 and C3: bounded size and insertion-order eviction -/

/-- C2, counterexample to the claim as stated: a single `set` with the empty
string as key on an empty cache of capacity 0 leaves one entry, because the
eviction loop's `if (!firstKey) break` treats the empty-string key as
missing (JS falsiness) and stops before evicting; so "after each set the
number of entries is at most the capacity" fails. -/
theorem cache_bound_counterexample :
    runCacheOps 0 [] [CacheOp.set ("") ("v")] = [(("") , ("v"))] ∧
    ¬ (runCacheOps 0 [] [CacheOp.set ("") ("v")]).length ≤ 0 := by
  decide

/-- C2 (amended: restricted to set operations whose keys are non-empty
strings, as every key the client builds is): for every sequence of set
operations on an initially empty bounded cache, after each set completes
the entry count is at most the capacity; moreover the eviction that
enforces it removes oldest-inserted entries from the front until the size
bound holds (for a cache with distinct non-empty keys the loop is exactly
`drop (size - capacity)`). -/
theorem cache_bounded_after_each_set (cacheMaxEntries : Nat) :
    (∀ (ops headOps tailOps : List CacheOp) (k v : String),
      ops = headOps ++ CacheOp.set k v :: tailOps →
      (∀ op ∈ ops, op.key ≠ "") →
      (runCacheOps cacheMaxEntries [] (headOps ++ [CacheOp.set k v])).length ≤ cacheMaxEntries) ∧
    (∀ l : List (String × String), (l.map Prod.fst).Nodup → (∀ p ∈ l, p.1 ≠ "") →
      evictLoop cacheMaxEntries l = l.drop (l.length - cacheMaxEntries)) := by
  constructor
  · intro ops headOps tailOps k v hsplit hkeys
    rw [runCacheOps_append]
    show (setCache cacheMaxEntries (runCacheOps cacheMaxEntries [] headOps) k v).length ≤ _
    have hheadkeys : ∀ op ∈ headOps, op.key ≠ "" := by
      intro o ho
      exact hkeys o (hsplit ▸ List.mem_append_left _ ho)
    have hsetk : (CacheOp.set k v).key ≠ "" :=
      hkeys _ (hsplit ▸ List.mem_append_right _ (List.mem_cons_self _ _))
    exact setCache_length_le cacheMaxEntries _ k v
      (runCacheOps_keys_ne cacheMaxEntries headOps [] (by simp) hheadkeys) hsetk
  · intro l hnd hk
    exact evictLoop_eq_drop cacheMaxEntries l hnd hk

/-- C2 witness: the amended bound and the drop characterization at concrete
inputs, via `cache_bounded_after_each_set`. -/
theorem cache_bounded_after_each_set_witness :
    (runCacheOps 1 [] ([] ++ [CacheOp.set ("a") ("x")])).length ≤ 1 ∧
    evictLoop 1 [(("a"), ("x")), (("b"), ("y"))] = [(("b"), ("y"))] := by
  constructor
  · exact (cache_bounded_after_each_set 1).1 ([] ++ CacheOp.set ("a") ("x") :: [])
      [] [] ("a") ("x") rfl (by decide)
  · have h := (cache_bounded_after_each_set 1).2 [(("a"), ("x")), (("b"), ("y"))]
      (by decide) (by decide)
    simpa using h

/-- C3, counterexample to the claim as stated: capacity 1, two distinct
keys, the first being the empty string.  The final set leaves the size at
2 because `if (!firstKey) break` stops eviction at the falsy empty-string
first key: the first-inserted key is NOT evicted. -/
theorem cache_eviction_counterexample :
    applySetList 1 [] [(("") , ("v0")), (("a"), ("v1"))] =
      [(("") , ("v0")), (("a"), ("v1"))] ∧
    mapGet (applySetList 1 [] [(("") , ("v0")), (("a"), ("v1"))]) ("") = some ("v0") := by
  decide

/-- C3 (amended: keys additionally non-empty, as every key the client
builds is): with capacity N ≥ 1, inserting N+1 pairwise-distinct non-empty
keys into an empty cache evicts exactly the first-inserted key — the final
cache is precisely the last N insertions in order, lookup of the first key
yields nothing and every other inserted pair is retrievable; a `set` on an
already-present key (capacity permitting) removes the prior entry and
re-appends the key as newest; and `get` operations never change the cache,
hence never change eviction order. -/
theorem cache_eviction_behaviour :
    (∀ (n : Nat) (ops : List (String × String)) (firstOp : String × String)
        (restOps : List (String × String)),
      1 ≤ n → ops = firstOp :: restOps → ops.length = n + 1 →
      (ops.map Prod.fst).Nodup → (∀ p ∈ ops, p.1 ≠ "") →
      applySetList n [] ops = restOps ∧
      mapGet (applySetList n [] ops) firstOp.1 = none ∧
      (∀ p ∈ restOps, mapGet (applySetList n [] ops) p.1 = some p.2)) ∧
    (∀ (m : Nat) (cache : List (String × String)) (k v : String),
      mapHas cache k = true → cache.length ≤ m →
      setCache m cache k v = mapDelete cache k ++ [(k, v)]) ∧
    (∀ (m : Nat) (cache : List (String × String)) (ops : List CacheOp),
      runCacheOps m cache ops = runCacheOps m cache (ops.filter CacheOp.isSet)) := by
  refine ⟨?_, ?_, ?_⟩
  · intro n ops firstOp restOps hn hsplit hlen hnd hkeys
    have hne : ops ≠ [] := by rw [hsplit]; simp
    have hdecomp : ops.dropLast ++ [ops.getLast hne] = ops :=
      List.dropLast_append_getLast hne
    have hinitlen : ops.dropLast.length = n := by
      rw [List.length_dropLast, hlen]
      omega
    have hndinit : ((ops.dropLast ++ [ops.getLast hne]).map Prod.fst).Nodup := by
      rw [hdecomp]; exact hnd
    have h1 : applySetList n [] ops.dropLast = ops.dropLast := by
      apply applySetList_fresh n ops.dropLast []
      · simp only [List.nil_append]
        rw [List.map_append] at hndinit
        exact (List.nodup_append.mp hndinit).1
      · simp [hinitlen]
    have h2 : applySetList n [] ops = setCache n ops.dropLast
        (ops.getLast hne).1 (ops.getLast hne).2 := by
      conv_lhs => rw [← hdecomp]
      rw [applySetList_append, h1]
      rfl
    have hfreshlast : (ops.getLast hne).1 ∉ ops.dropLast.map Prod.fst := by
      rw [List.map_append] at hndinit
      have hdisj := (List.nodup_append.mp hndinit).2.2
      intro hkin
      exact hdisj hkin (by simp)
    have h3 : applySetList n [] ops = evictLoop n ops := by
      rw [h2, setCache,
        if_neg (fun hh => hfreshlast ((mapHas_iff _ _).mp hh))]
      conv_rhs => rw [← hdecomp]
    have h4 : applySetList n [] ops = restOps := by
      rw [h3, evictLoop_eq_drop n ops hnd hkeys, hlen, hsplit]
      have : n + 1 - n = 1 := by omega
      rw [this, List.drop_one, List.tail_cons]
    have hndrest : (restOps.map Prod.fst).Nodup := by
      rw [hsplit, List.map_cons, List.nodup_cons] at hnd
      exact hnd.2
    have hfirstnotin : firstOp.1 ∉ restOps.map Prod.fst := by
      rw [hsplit, List.map_cons, List.nodup_cons] at hnd
      exact hnd.1
    refine ⟨h4, ?_, ?_⟩
    · rw [h4]
      exact mapGet_eq_none restOps firstOp.1 hfirstnotin
    · intro p hp
      rw [h4]
      exact mapGet_of_mem_nodup restOps p.1 p.2 hndrest (by simpa using hp)
  · intro m cache k v hhas hlen
    rw [setCache, if_pos hhas]
    apply evictLoop_of_length_le
    have hdel := mapDelete_length_lt cache k hhas
    simp only [List.length_append, List.length_cons, List.length_nil]
    omega
  · intro m cache ops
    induction ops generalizing cache with
    | nil => rfl
    | cons op rest ih =>
      cases op with
      | set k v =>
        show runCacheOps m (setCache m cache k v) rest =
          runCacheOps m cache (CacheOp.set k v :: rest.filter CacheOp.isSet)
        exact ih (setCache m cache k v)
      | get k =>
        exact ih cache

/-- C3 witness: capacity 1, inserting the two distinct non-empty keys k1,
k2 evicts exactly k1; a set on a present key re-appends it; gets are
no-ops — all via `cache_eviction_behaviour` at concrete inputs. -/
theorem cache_eviction_behaviour_witness :
    applySetList 1 [] [(("k1"), ("v1")), (("k2"), ("v2"))] = [(("k2"), ("v2"))] ∧
    setCache 2 [(("a"), ("1")), (("b"), ("2"))] ("a") ("3") =
      [(("b"), ("2")), (("a"), ("3"))] ∧
    runCacheOps 5 [] [CacheOp.set ("a") ("1"), CacheOp.get ("a")] =
      runCacheOps 5 [] ([CacheOp.set ("a") ("1"), CacheOp.get ("a")].filter CacheOp.isSet) := by
  refine ⟨?_, ?_, ?_⟩
  · exact (cache_eviction_behaviour.1 1 [(("k1"), ("v1")), (("k2"), ("v2"))]
      (("k1"), ("v1")) [(("k2"), ("v2"))] (by decide) rfl (by decide) (by decide)
      (by decide)).1
  · have h := cache_eviction_behaviour.2.1 2 [(("a"), ("1")), (("b"), ("2"))]
      ("a") ("3") (by decide) (by decide)
    rw [h]
    decide
  · exact cache_eviction_behaviour.2.2 5 [] [CacheOp.set ("a") ("1"), CacheOp.get ("a")]

/-! ## Claim C7: the path resolver -/

/-- Bool test for a leading '/'. -/
def startsWithSlash (s : String) : Bool :=
  s.toList.head? == some '/'

/-- Bool test for a trailing '/'. -/
def endsWithSlash (s : String) : Bool :=
  s.toList.getLast? == some '/'

theorem head?_dropWhile_not {p : Char → Bool} {l : List Char} {c : Char}
    (h : (l.dropWhile p).head? = some c) : p c = false := by
  induction l with
  | nil => simp at h
  | cons a rest ih =>
    rw [List.dropWhile_cons] at h
    split at h
    · exact ih h
    next hpa =>
      simp only [List.head?_cons, Option.some.injEq] at h
      subst h
      simpa using hpa

theorem toList_mk (l : List Char) : (String.mk l).toList = l := rfl

theorem trimPathEdges_no_trailing_slash (s : String) :
    endsWithSlash (trimPathEdges s) = false := by
  rw [endsWithSlash, trimPathEdges, toList_mk]
  rcases hh : ((s.toList.dropWhile (fun c => c == '/')).reverse.dropWhile
      (fun c => c == '/')).reverse.getLast? with _ | c
  · rfl
  · rw [← List.head?_reverse, List.reverse_reverse] at hh
    have hpc := head?_dropWhile_not hh
    rw [beq_eq_false_iff_ne] at hpc ⊢
    intro h
    exact hpc (Option.some.inj h)

theorem trimPathEdges_no_leading_slash (s : String) :
    startsWithSlash (trimPathEdges s) = false := by
  rw [startsWithSlash, trimPathEdges, toList_mk]
  rcases hh : ((s.toList.dropWhile (fun c => c == '/')).reverse.dropWhile
      (fun c => c == '/')).reverse.head? with _ | c
  · rfl
  · rw [List.head?_reverse] at hh
    have hne : (s.toList.dropWhile (fun c => c == '/')).reverse.dropWhile
        (fun c => c == '/') ≠ [] := by
      intro hnil
      rw [hnil] at hh
      simp at hh
    obtain ⟨t, ht⟩ := List.dropWhile_suffix
      (l := (s.toList.dropWhile (fun c => c == '/')).reverse) (fun c => c == '/')
    have h2 : ((s.toList.dropWhile (fun c => c == '/')).reverse.dropWhile
        (fun c => c == '/')).getLast?
        = (s.toList.dropWhile (fun c => c == '/')).reverse.getLast? := by
      conv_rhs => rw [← ht]
      exact (List.getLast?_append_of_ne_nil t hne).symm
    rw [h2, List.getLast?_reverse] at hh
    have hpc := head?_dropWhile_not hh
    rw [beq_eq_false_iff_ne] at hpc ⊢
    intro h
    exact hpc (Option.some.inj h)

/-- C7: `resolveTemplatePath` strips redundant slashes from the edges of
both trimmed inputs and never produces a double slash at the join point
(the cleaned base never ends with '/', the cleaned template path never
starts with '/'), joining with a single slash —
resolve("emails/welcome.pug", "src/templates") =
"src/templates/emails/welcome.pug" — and with an empty or absent base path
the result is the cleaned template path unchanged. -/
theorem resolveTemplatePath_spec :
    resolveTemplatePath ("emails/welcome.pug") (some ("src/templates")) =
      .ok ("src/templates/emails/welcome.pug") ∧
    (∀ (tp : String) (bp : Option String) (r : String),
      resolveTemplatePath tp bp = .ok r →
      (cleanedBasePathOf bp = "" → r = trimPathEdges (jsTrim tp)) ∧
      (cleanedBasePathOf bp ≠ "" →
        r = cleanedBasePathOf bp ++ "/" ++ trimPathEdges (jsTrim tp) ∧
        endsWithSlash (cleanedBasePathOf bp) = false ∧
        startsWithSlash (trimPathEdges (jsTrim tp)) = false)) := by
  constructor
  · decide
  · intro tp bp r h
    simp only [resolveTemplatePath] at h
    split at h
    · exact absurd h (by simp)
    · split at h
      next hb =>
        refine ⟨fun _ => (Except.ok.inj h).symm, fun hb2 => absurd hb hb2⟩
      next hb =>
        refine ⟨fun hb2 => absurd hb2 hb, fun _ => ⟨(Except.ok.inj h).symm, ?_, ?_⟩⟩
        · cases bp with
          | none => rfl
          | some b =>
            rw [cleanedBasePathOf]
            split
            · rfl
            · exact trimPathEdges_no_trailing_slash _
        · exact trimPathEdges_no_leading_slash _

/-- C7 witness: `resolveTemplatePath_spec` applied to inputs with redundant
slashes on both sides of the join. -/
theorem resolveTemplatePath_spec_witness :
    ("base/a//b" : String) =
      cleanedBasePathOf (some ("/base//")) ++ "/" ++ trimPathEdges (jsTrim ("//a//b/")) ∧
    endsWithSlash (cleanedBasePathOf (some ("/base//"))) = false ∧
    startsWithSlash (trimPathEdges (jsTrim ("//a//b/"))) = false :=
  (resolveTemplatePath_spec.2 ("//a//b/") (some ("/base//")) ("base/a//b")
    (by decide)).2 (by decide)

/-! ## Claims C8, C1, C10: the client's caching behaviour -/

/-- C8: every failing execution of `getTemplateContentByCommit` (invalid
template path, non-success HTTP status, unparseable success body, or
invalid success payload) rejects with a single message-bearing error and
leaves the bounded content cache unchanged; an entry is written only on the
fully successful path after decoding. -/
theorem getTemplateContent_error_cache_unchanged
    (config : GitHubTemplatePreviewConfig) (fetcher : String → HttpResponse)
    (m : Nat) (cache : List (String × String)) (request : TemplateContentRequest)
    (e : String)
    (h : (getTemplateContentByCommit config fetcher m cache request).result = .error e) :
    (getTemplateContentByCommit config fetcher m cache request).cache = cache := by
  rcases hres : resolveTemplatePath request.templatePath config.templatesBasePath with e1 | p
  · simp [getTemplateContentByCommit, hres]
  · rcases hget : mapGet cache (buildCacheKey config p request.gitCommitSha) with _ | v
    · cases hok : (fetcher (buildApiUrl config p request.gitCommitSha)).ok with
      | false => simp [getTemplateContentByCommit, hres, hget, hok]
      | true =>
        rcases hbody : (fetcher (buildApiUrl config p request.gitCommitSha)).body with _ | payload
        · simp [getTemplateContentByCommit, hres, hget, hok, hbody]
        · cases hcond : (!(jsTruthy payload.content) || payload.encoding != some ("base64")) with
          | true => simp [getTemplateContentByCommit, hres, hget, hok, hbody, hcond]
          | false =>
            exfalso
            simp [getTemplateContentByCommit, hres, hget, hok, hbody, hcond] at h
    · simp [getTemplateContentByCommit, hres, hget]

/-- C8 witness: `getTemplateContent_error_cache_unchanged` at a concrete
run whose stub fetcher returns HTTP 404. -/
theorem getTemplateContent_error_cache_unchanged_witness :
    (getTemplateContentByCommit ⟨("o/r"), ("k"), ("https://api.example"), none⟩
      (fun _ => ⟨false, 404, [], none⟩) 100 []
      ⟨("templates/missing.pug"), ("b")⟩).cache = [] :=
  getTemplateContent_error_cache_unchanged ⟨("o/r"), ("k"), ("https://api.example"), none⟩
    (fun _ => ⟨false, 404, [], none⟩) 100 [] ⟨("templates/missing.pug"), ("b")⟩
    ("Template file was not found in GitHub for the requested commit.") (by decide)

/-- C1: starting from an empty cache with capacity at least 1 (the
constructor default is 100), if a call to `getTemplateContentByCommit`
succeeds, then it issued exactly one network request, and a second call
with the identical request consults the cache and returns immediately: it
issues no network request, returns content identical to the first call's,
and leaves the cache unchanged — so exactly one request is issued across
the two calls. -/
theorem getTemplateContent_cache_idempotent
    (config : GitHubTemplatePreviewConfig) (fetcher : String → HttpResponse)
    (m : Nat) (request : TemplateContentRequest) (v : String)
    (hm : 1 ≤ m)
    (h : (getTemplateContentByCommit config fetcher m [] request).result = .ok v) :
    (getTemplateContentByCommit config fetcher m [] request).networkCalls = 1 ∧
    getTemplateContentByCommit config fetcher m
        (getTemplateContentByCommit config fetcher m [] request).cache request =
      ⟨(getTemplateContentByCommit config fetcher m [] request).cache, 0, .ok v⟩ := by
  rcases hres : resolveTemplatePath request.templatePath config.templatesBasePath with e1 | p
  · simp [getTemplateContentByCommit, hres] at h
  · have hget : mapGet [] (buildCacheKey config p request.gitCommitSha) = none := rfl
    cases hok : (fetcher (buildApiUrl config p request.gitCommitSha)).ok with
    | false => simp [getTemplateContentByCommit, hres, hget, hok] at h
    | true =>
      rcases hbody : (fetcher (buildApiUrl config p request.gitCommitSha)).body with _ | payload
      · simp [getTemplateContentByCommit, hres, hget, hok, hbody] at h
      · cases hcond : (!(jsTruthy payload.content) || payload.encoding != some ("base64")) with
        | true => simp [getTemplateContentByCommit, hres, hget, hok, hbody, hcond] at h
        | false =>
          have hv : decodeBase64Utf8 (stripNewlines (payload.content.getD (""))) = v := by
            simpa [getTemplateContentByCommit, hres, hget, hok, hbody, hcond] using h
          have hset : setCache m [] (buildCacheKey config p request.gitCommitSha)
              (decodeBase64Utf8 (stripNewlines (payload.content.getD ("")))) =
              [(buildCacheKey config p request.gitCommitSha,
                decodeBase64Utf8 (stripNewlines (payload.content.getD (""))))] := by
            rw [setCache_fresh m [] _ _ (by simp) (by simp only [List.length_nil]; omega)]
            rfl
          have hcache : (getTemplateContentByCommit config fetcher m [] request).cache =
              [(buildCacheKey config p request.gitCommitSha,
                decodeBase64Utf8 (stripNewlines (payload.content.getD (""))))] := by
            simp [getTemplateContentByCommit, hres, hget, hok, hbody, hcond, hset]
          refine ⟨by simp [getTemplateContentByCommit, hres, hget, hok, hbody, hcond], ?_⟩
          rw [hcache]
          have hget2 := mapGet_cons_self ([] : List (String × String))
            (buildCacheKey config p request.gitCommitSha) v
          simp [getTemplateContentByCommit, hres, hget2, hv]

/-- A concrete configuration used by several witnesses. -/
def witnessConfig : GitHubTemplatePreviewConfig :=
  ⟨("o/r"), ("k"), ("https://api.example"), none⟩

/-- A concrete stub fetcher returning a successful base64 file-content
response ("hello world") for every URL. -/
def witnessOkFetcher : String → HttpResponse :=
  fun _ => ⟨true, 200, [], some ⟨some ("aGVsbG8gd29ybGQ="), some ("base64"), none, none⟩⟩

/-- A concrete request used by several witnesses. -/
def witnessRequest : TemplateContentRequest :=
  ⟨("a.txt"), ("sha1")⟩

/-- C1 witness: `getTemplateContent_cache_idempotent` at the concrete
successful run decoding "hello world". -/
theorem getTemplateContent_cache_idempotent_witness :
    (getTemplateContentByCommit witnessConfig witnessOkFetcher 100 [] witnessRequest).networkCalls
      = 1 ∧
    getTemplateContentByCommit witnessConfig witnessOkFetcher 100
        (getTemplateContentByCommit witnessConfig witnessOkFetcher 100 [] witnessRequest).cache
        witnessRequest =
      ⟨(getTemplateContentByCommit witnessConfig witnessOkFetcher 100 [] witnessRequest).cache,
        0, .ok ("hello world")⟩ :=
  getTemplateContent_cache_idempotent witnessConfig witnessOkFetcher 100 witnessRequest
    ("hello world") (by decide) (by decide)

theorem buildCacheKey_ne_empty (config : GitHubTemplatePreviewConfig) (p sha : String) :
    buildCacheKey config p sha ≠ "" := by
  intro hk
  have hlen : (buildCacheKey config p sha).length = 0 := by rw [hk]; rfl
  have h1 : (":" : String).length = 1 := rfl
  rw [buildCacheKey, String.length_append, String.length_append, String.length_append,
    String.length_append, h1] at hlen
  omega

/-- C10: with `cacheMaxEntries` equal to 0 the eviction loop immediately
removes the entry just written under any key the client builds, so the
cache stays empty after every call, and every call whose template path
resolves — in particular one with arguments identical to a previous
successful call — issues a network request. -/
theorem zero_capacity_disables_caching
    (config : GitHubTemplatePreviewConfig) (fetcher : String → HttpResponse)
    (request : TemplateContentRequest) :
    (∀ (p sha v : String), setCache 0 [] (buildCacheKey config p sha) v = []) ∧
    (getTemplateContentByCommit config fetcher 0 [] request).cache = [] ∧
    (∀ p, resolveTemplatePath request.templatePath config.templatesBasePath = .ok p →
      (getTemplateContentByCommit config fetcher 0 [] request).networkCalls = 1) ∧
    (∀ v, (getTemplateContentByCommit config fetcher 0 [] request).result = .ok v →
      (getTemplateContentByCommit config fetcher 0
        ((getTemplateContentByCommit config fetcher 0 [] request).cache)
        request).networkCalls = 1) := by
  have hset : ∀ (p sha v : String), setCache 0 [] (buildCacheKey config p sha) v = [] := by
    intro p sha v
    have hle := setCache_length_le 0 [] (buildCacheKey config p sha) v (by simp)
      (buildCacheKey_ne_empty config p sha)
    exact List.length_eq_zero.mp (Nat.le_zero.mp hle)
  have hcache : (getTemplateContentByCommit config fetcher 0 [] request).cache = [] := by
    rcases hres : resolveTemplatePath request.templatePath config.templatesBasePath with e1 | p
    · simp [getTemplateContentByCommit, hres]
    · have hget : mapGet [] (buildCacheKey config p request.gitCommitSha) = none := rfl
      cases hok : (fetcher (buildApiUrl config p request.gitCommitSha)).ok with
      | false => simp [getTemplateContentByCommit, hres, hget, hok]
      | true =>
        rcases hbody : (fetcher (buildApiUrl config p request.gitCommitSha)).body with _ | payload
        · simp [getTemplateContentByCommit, hres, hget, hok, hbody]
        · cases hcond : (!(jsTruthy payload.content) || payload.encoding != some ("base64")) with
          | true => simp [getTemplateContentByCommit, hres, hget, hok, hbody, hcond]
          | false =>
            simp [getTemplateContentByCommit, hres, hget, hok, hbody, hcond,
              hset p request.gitCommitSha]
  have hnet : ∀ p, resolveTemplatePath request.templatePath config.templatesBasePath = .ok p →
      (getTemplateContentByCommit config fetcher 0 [] request).networkCalls = 1 := by
    intro p hres
    have hget : mapGet [] (buildCacheKey config p request.gitCommitSha) = none := rfl
    cases hok : (fetcher (buildApiUrl config p request.gitCommitSha)).ok with
    | false => simp [getTemplateContentByCommit, hres, hget, hok]
    | true =>
      rcases hbody : (fetcher (buildApiUrl config p request.gitCommitSha)).body with _ | payload
      · simp [getTemplateContentByCommit, hres, hget, hok, hbody]
      · cases hcond : (!(jsTruthy payload.content) || payload.encoding != some ("base64")) with
        | true => simp [getTemplateContentByCommit, hres, hget, hok, hbody, hcond]
        | false => simp [getTemplateContentByCommit, hres, hget, hok, hbody, hcond]
  refine ⟨hset, hcache, hnet, ?_⟩
  intro v hv
  rcases hres : resolveTemplatePath request.templatePath config.templatesBasePath with e1 | p
  · simp [getTemplateContentByCommit, hres] at hv
  · rw [hcache]
    exact hnet p hres

/-- C10 witness: `zero_capacity_disables_caching` at a concrete successful
run: the cache stays empty and both the first and the repeated identical
call issue a network request. -/
theorem zero_capacity_disables_caching_witness :
    setCache 0 [] (buildCacheKey witnessConfig ("a.txt") ("sha1")) ("hello world") = [] ∧
    (getTemplateContentByCommit witnessConfig witnessOkFetcher 0 [] witnessRequest).cache = [] ∧
    (getTemplateContentByCommit witnessConfig witnessOkFetcher 0 [] witnessRequest).networkCalls
      = 1 ∧
    (getTemplateContentByCommit witnessConfig witnessOkFetcher 0
      ((getTemplateContentByCommit witnessConfig witnessOkFetcher 0 [] witnessRequest).cache)
      witnessRequest).networkCalls = 1 := by
  refine ⟨?_, ?_, ?_, ?_⟩
  · exact (zero_capacity_disables_caching witnessConfig witnessOkFetcher witnessRequest).1
      ("a.txt") ("sha1") ("hello world")
  · exact (zero_capacity_disables_caching witnessConfig witnessOkFetcher witnessRequest).2.1
  · exact (zero_capacity_disables_caching witnessConfig witnessOkFetcher witnessRequest).2.2.1
      ("a.txt") (by decide)
  · exact (zero_capacity_disables_caching witnessConfig witnessOkFetcher
      witnessRequest).2.2.2 ("hello world") (by decide)

/-! ## Claim C4: success-payload validation and decoding -/

/-- A stub fetcher returning a successful response whose content field is
present but the empty string (the base64 encoding of an empty file), with
encoding "base64". -/
def emptyContentFetcher : String → HttpResponse :=
  fun _ => ⟨true, 200, [], some ⟨some (""), some ("base64"), none, none⟩⟩

/-- C4, counterexample to the claim as stated: a success body whose
`content` field is present (the empty string, a legitimate base64 encoding
of empty content) and whose `encoding` equals "base64" is nevertheless
rejected as invalid, because `if (!payload.content)` treats the empty
string as missing (JS falsiness); so "fails exactly when the content field
is missing or the encoding differs" is violated. -/
theorem success_payload_decoding_counterexample :
    (emptyContentFetcher ("x")).body = some ⟨some (""), some ("base64"), none, none⟩ ∧
    (getTemplateContentByCommit witnessConfig emptyContentFetcher 100 []
      witnessRequest).result =
      .error ("GitHub template response is invalid or unsupported.") := by
  decide

/-- C4 (amended: "missing" extended to "missing or empty", which is how the
JS truthiness test `!payload.content` behaves): on an HTTP-success response
with a parsed body, the call fails with the invalid-response error exactly
when the content field is missing or empty or the encoding differs from
"base64"; otherwise it strips newlines from the base64 payload, decodes it
as UTF-8 and returns that text — in particular the base64 encoding of
"hello world" decodes to exactly "hello world". -/
theorem success_payload_decoding
    (config : GitHubTemplatePreviewConfig) (fetcher : String → HttpResponse)
    (m : Nat) (cache : List (String × String)) (request : TemplateContentRequest)
    (p : String) (payload : ResponseBody)
    (hres : resolveTemplatePath request.templatePath config.templatesBasePath = .ok p)
    (hget : mapGet cache (buildCacheKey config p request.gitCommitSha) = none)
    (hok : (fetcher (buildApiUrl config p request.gitCommitSha)).ok = true)
    (hbody : (fetcher (buildApiUrl config p request.gitCommitSha)).body = some payload) :
    ((getTemplateContentByCommit config fetcher m cache request).result =
        .error ("GitHub template response is invalid or unsupported.") ↔
      (payload.content = none ∨ payload.content = some ("") ∨
        payload.encoding ≠ some ("base64"))) ∧
    (∀ c : String, payload.content = some c → c ≠ "" → payload.encoding = some ("base64") →
      (getTemplateContentByCommit config fetcher m cache request).result =
        .ok (decodeBase64Utf8 (stripNewlines c))) ∧
    decodeBase64Utf8 ("aGVsbG8gd29ybGQ=") = "hello world" := by
  refine ⟨?_, ?_, by decide⟩
  · cases hcond : (!(jsTruthy payload.content) || payload.encoding != some ("base64")) with
    | true =>
      simp only [getTemplateContentByCommit, hres, hget, hok, hbody, hcond]
      constructor
      · intro _
        simp only [Bool.or_eq_true, Bool.not_eq_true', bne_iff_ne, ne_eq] at hcond
        rcases hcond with hc | hc
        · rcases hcontent : payload.content with _ | s
          · exact Or.inl rfl
          · refine Or.inr (Or.inl ?_)
            rw [hcontent] at hc
            simp only [jsTruthy, bne_eq_false_iff_eq] at hc
            rw [hc]
        · exact Or.inr (Or.inr hc)
      · intro _
        simp
    | false =>
      simp only [getTemplateContentByCommit, hres, hget, hok, hbody, hcond]
      simp only [Bool.or_eq_false_iff, Bool.not_eq_false', bne_eq_false_iff_eq] at hcond
      constructor
      · intro hcontra
        simp at hcontra
      · intro hinval
        rcases hinval with hc | hc | hc
        · rw [hc] at hcond
          simp [jsTruthy] at hcond
        · rw [hc] at hcond
          simp [jsTruthy] at hcond
        · exact absurd hcond.2 hc
  · intro c hc hcne henc
    have hcond : (!(jsTruthy payload.content) || payload.encoding != some ("base64")) = false := by
      rw [hc, henc]
      simp [jsTruthy, hcne]
    simp only [getTemplateContentByCommit, hres, hget, hok, hbody, hcond]
    simp [hc]

/-- C4 witness: `success_payload_decoding` at the concrete run decoding the
base64 of "hello world". -/
theorem success_payload_decoding_witness :
    (getTemplateContentByCommit witnessConfig witnessOkFetcher 100 [] witnessRequest).result =
      .ok (decodeBase64Utf8 (stripNewlines ("aGVsbG8gd29ybGQ="))) ∧
    decodeBase64Utf8 ("aGVsbG8gd29ybGQ=") = "hello world" := by
  refine ⟨?_, ?_⟩
  · exact (success_payload_decoding witnessConfig witnessOkFetcher 100 [] witnessRequest
      ("a.txt") ⟨some ("aGVsbG8gd29ybGQ="), some ("base64"), none, none⟩
      (by decide) rfl rfl rfl).2.1 ("aGVsbG8gd29ybGQ=") rfl (by decide) rfl
  · exact (success_payload_decoding witnessConfig witnessOkFetcher 100 [] witnessRequest
      ("a.txt") ⟨some ("aGVsbG8gd29ybGQ="), some ("base64"), none, none⟩
      (by decide) rfl rfl rfl).2.2

/-! ## Claim C5: HTTP error classification -/

/-- C5, counterexample to the claim as stated: a status-500 response whose
body parses as JSON *with a message field* holding the empty string gets no
": <message>" suffix, because `if (body.message)` is a JS truthiness test
and the empty string is falsy; the claim promises the suffix whenever the
parsed body has a message field. -/
theorem http_error_classification_counterexample :
    (⟨none, none, none, some ("")⟩ : ResponseBody).message = some ("") ∧
    buildHttpError ⟨false, 500, [], some ⟨none, none, none, some ("")⟩⟩ =
      "GitHub template fetch failed with status 500" := by
  decide

/-- C5 (amended: the ": <message>" suffix is appended only for a non-empty
message field, matching the truthiness test): classification is total (a
total function of the response, never throwing; an unparseable body is
swallowed and merely omits the suffix) and maps status 404 to the
not-found message (containing "not found"); status 403 with header
x-ratelimit-remaining "0" and status 429 to the rate-limit message
(containing "rate limit exceeded"), in both entry points; status 403
without that header to the forbidden message (containing "forbidden"), in
both entry points; and any other status to a generic message carrying the
numeric status, with the ": <message>" suffix exactly when the body parsed
and carried a non-empty message field. -/
theorem http_error_classification (response : HttpResponse) :
    (response.status = 404 →
      buildHttpError response =
        "Template file was not found in GitHub for the requested commit." ∧
      strContains (buildHttpError response) ("not found") = true) ∧
    (response.status = 403 →
      headersGet response.headers ("x-ratelimit-remaining") = some ("0") →
      buildHttpError response =
        "GitHub API rate limit exceeded while fetching template preview." ∧
      buildCommitLookupHttpError response =
        "GitHub API rate limit exceeded while fetching template preview." ∧
      strContains (buildHttpError response) ("rate limit exceeded") = true) ∧
    (response.status = 429 →
      buildHttpError response =
        "GitHub API rate limit exceeded while fetching template preview." ∧
      buildCommitLookupHttpError response =
        "GitHub API rate limit exceeded while fetching template preview.") ∧
    (response.status = 403 →
      headersGet response.headers ("x-ratelimit-remaining") ≠ some ("0") →
      buildHttpError response =
        "GitHub API request was forbidden. Check repository access and token permissions." ∧
      buildCommitLookupHttpError response =
        "GitHub API request was forbidden. Check repository access and token permissions." ∧
      strContains (buildHttpError response) ("forbidden") = true) ∧
    (response.status ≠ 404 → response.status ≠ 403 → response.status ≠ 429 →
      buildHttpError response =
        "GitHub template fetch failed with status " ++ toString response.status ++
          messageSuffix response.body ∧
      buildCommitLookupHttpError response =
        "GitHub main branch commit lookup failed with status " ++ toString response.status ++
          messageSuffix response.body) ∧
    (response.body = none → messageSuffix response.body = "") ∧
    (∀ b : ResponseBody, response.body = some b →
      (b.message = none → messageSuffix response.body = "") ∧
      (b.message = some ("") → messageSuffix response.body = "") ∧
      (∀ s : String, b.message = some s → s ≠ "" →
        messageSuffix response.body = ": " ++ s)) := by
  refine ⟨?_, ?_, ?_, ?_, ?_, ?_, ?_⟩
  · intro h404
    rw [buildHttpError, if_pos h404]
    exact ⟨rfl, by decide⟩
  · intro h403 hhdr
    have h404 : response.status ≠ 404 := by omega
    rw [buildHttpError, if_neg (by rw [h403]; omega), if_pos h403, if_pos hhdr]
    rw [buildCommitLookupHttpError, if_neg (by rw [h403]; omega), if_pos h403, if_pos hhdr]
    exact ⟨rfl, rfl, by decide⟩
  · intro h429
    rw [buildHttpError, if_neg (by omega), if_neg (by omega), if_pos h429]
    rw [buildCommitLookupHttpError, if_neg (by omega), if_neg (by omega), if_pos h429]
    exact ⟨rfl, rfl⟩
  · intro h403 hhdr
    rw [buildHttpError, if_neg (by omega), if_pos h403, if_neg hhdr]
    rw [buildCommitLookupHttpError, if_neg (by omega), if_pos h403, if_neg hhdr]
    exact ⟨rfl, rfl, by decide⟩
  · intro h404 h403 h429
    rw [buildHttpError, if_neg h404, if_neg h403, if_neg h429]
    rw [buildCommitLookupHttpError, if_neg h404, if_neg h403, if_neg h429]
    exact ⟨rfl, rfl⟩
  · intro hb
    rw [hb]
    rfl
  · intro b hb
    refine ⟨?_, ?_, ?_⟩
    · intro hm
      rw [hb]
      simp [messageSuffix, hm]
    · intro hm
      rw [hb]
      simp [messageSuffix, hm]
    · intro s hm hs
      rw [hb]
      simp [messageSuffix, hm, hs]

/-- C5 witness: `http_error_classification` applied at concrete responses:
404; 403 with the rate-limit header at 0; 429; 403 without the header; and
a 500 whose body carries a non-empty message. -/
theorem http_error_classification_witness :
    buildHttpError ⟨false, 404, [], none⟩ =
      "Template file was not found in GitHub for the requested commit." ∧
    buildHttpError ⟨false, 403, [(("x-ratelimit-remaining"), ("0"))], none⟩ =
      "GitHub API rate limit exceeded while fetching template preview." ∧
    buildHttpError ⟨false, 429, [], none⟩ =
      "GitHub API rate limit exceeded while fetching template preview." ∧
    buildHttpError ⟨false, 403, [], none⟩ =
      "GitHub API request was forbidden. Check repository access and token permissions." ∧
    buildHttpError ⟨false, 500, [], some ⟨none, none, none, some ("boom")⟩⟩ =
      "GitHub template fetch failed with status " ++ toString (500 : Nat) ++
        messageSuffix (some ⟨none, none, none, some ("boom")⟩) := by
  refine ⟨?_, ?_, ?_, ?_, ?_⟩
  · exact ((http_error_classification ⟨false, 404, [], none⟩).1 rfl).1
  · exact ((http_error_classification
      ⟨false, 403, [(("x-ratelimit-remaining"), ("0"))], none⟩).2.1 rfl (by decide)).1
  · exact ((http_error_classification ⟨false, 429, [], none⟩).2.2.1 rfl).1
  · exact ((http_error_classification ⟨false, 403, [], none⟩).2.2.2.1 rfl (by decide)).1
  · exact ((http_error_classification
      ⟨false, 500, [], some ⟨none, none, none, some ("boom")⟩⟩).2.2.2.2.1
      (by decide) (by decide) (by decide)).1

/-! ## Claim C9: getLatestMainCommitSha -/

/-- A stub fetcher whose successful commit-lookup body carries a sha field
holding the empty string. -/
def emptyShaFetcher : String → HttpResponse :=
  fun _ => ⟨true, 200, [], some ⟨none, none, some (""), none⟩⟩

/-- C9, counterexample to the claim as stated: a success body that HAS a
sha field (the empty string) is rejected as invalid rather than returned,
because `if (!payload.sha)` treats the empty string as absent (JS
falsiness); the claim promises the sha string whenever the body has a sha
field. -/
theorem latest_commit_sha_counterexample :
    (emptyShaFetcher ("x")).body = some ⟨none, none, some (""), none⟩ ∧
    (getLatestMainCommitSha witnessConfig emptyShaFetcher []).result =
      .error ("GitHub main branch commit lookup returned an invalid response.") := by
  decide

/-- C9 (amended: "has a sha field" strengthened to "has a non-empty sha
field", matching the truthiness test): every `getLatestMainCommitSha` call
performs no caching — it issues exactly one network request, leaves the
cache untouched and its result does not depend on the cache contents — and
on a success response with a parsed body it returns the sha string when
that field is present and non-empty, and fails with the invalid-response
error when the sha field is absent or empty. -/
theorem latest_commit_sha_spec (config : GitHubTemplatePreviewConfig)
    (fetcher : String → HttpResponse) (cache : List (String × String)) :
    (getLatestMainCommitSha config fetcher cache).networkCalls = 1 ∧
    (getLatestMainCommitSha config fetcher cache).cache = cache ∧
    (∀ cache2, (getLatestMainCommitSha config fetcher cache).result =
      (getLatestMainCommitSha config fetcher cache2).result) ∧
    (∀ payload : ResponseBody,
      (fetcher (config.apiBaseUrl ++ "/repos/" ++ config.repo ++ "/commits/main")).ok = true →
      (fetcher (config.apiBaseUrl ++ "/repos/" ++ config.repo ++ "/commits/main")).body =
        some payload →
      ((∀ s : String, payload.sha = some s → s ≠ "" →
          (getLatestMainCommitSha config fetcher cache).result = .ok s) ∧
        ((payload.sha = none ∨ payload.sha = some ("")) →
          (getLatestMainCommitSha config fetcher cache).result =
            .error ("GitHub main branch commit lookup returned an invalid response.")))) := by
  have hshape : ∀ c : List (String × String),
      (getLatestMainCommitSha config fetcher c).networkCalls = 1 ∧
      (getLatestMainCommitSha config fetcher c).cache = c := by
    intro c
    cases hok : (fetcher (config.apiBaseUrl ++ "/repos/" ++ config.repo ++ "/commits/main")).ok with
    | false => simp [getLatestMainCommitSha, hok]
    | true =>
      rcases hbody : (fetcher (config.apiBaseUrl ++ "/repos/" ++ config.repo ++
          "/commits/main")).body with _ | payload
      · simp [getLatestMainCommitSha, hok, hbody]
      · cases hsha : jsTruthy payload.sha with
        | false => simp [getLatestMainCommitSha, hok, hbody, hsha]
        | true => simp [getLatestMainCommitSha, hok, hbody, hsha]
  have hresind : ∀ c1 c2 : List (String × String),
      (getLatestMainCommitSha config fetcher c1).result =
      (getLatestMainCommitSha config fetcher c2).result := by
    intro c1 c2
    cases hok : (fetcher (config.apiBaseUrl ++ "/repos/" ++ config.repo ++ "/commits/main")).ok with
    | false => simp [getLatestMainCommitSha, hok]
    | true =>
      rcases hbody : (fetcher (config.apiBaseUrl ++ "/repos/" ++ config.repo ++
          "/commits/main")).body with _ | payload
      · simp [getLatestMainCommitSha, hok, hbody]
      · cases hsha : jsTruthy payload.sha with
        | false => simp [getLatestMainCommitSha, hok, hbody, hsha]
        | true => simp [getLatestMainCommitSha, hok, hbody, hsha]
  refine ⟨(hshape cache).1, (hshape cache).2, fun c2 => hresind cache c2, ?_⟩
  intro payload hok hbody
  constructor
  · intro s hs hsne
    simp [getLatestMainCommitSha, hok, hbody, hs, jsTruthy, hsne]
  · intro habsent
    have hsha : jsTruthy payload.sha = false := by
      rcases habsent with h | h <;> rw [h] <;> rfl
    simp [getLatestMainCommitSha, hok, hbody, hsha]

/-- C9 witness: `latest_commit_sha_spec` at a concrete fetcher returning
sha "abc123". -/
theorem latest_commit_sha_spec_witness :
    (getLatestMainCommitSha witnessConfig
      (fun _ => ⟨true, 200, [], some ⟨none, none, some ("abc123"), none⟩⟩) []).networkCalls = 1 ∧
    (getLatestMainCommitSha witnessConfig
      (fun _ => ⟨true, 200, [], some ⟨none, none, some ("abc123"), none⟩⟩) []).result =
      .ok ("abc123") := by
  refine ⟨(latest_commit_sha_spec witnessConfig
    (fun _ => ⟨true, 200, [], some ⟨none, none, some ("abc123"), none⟩⟩) []).1, ?_⟩
  exact ((latest_commit_sha_spec witnessConfig
    (fun _ => ⟨true, 200, [], some ⟨none, none, some ("abc123"), none⟩⟩) []).2.2.2
    ⟨none, none, some ("abc123"), none⟩ rfl rfl).1 ("abc123") rfl (by decide)

/-! ## Claim C6: shape of normalizeRepo's output -/

theorem char_toNat_lt (c : Char) : c.toNat < 1114112 := by
  have h := c.valid
  rw [Char.toNat]
  rcases h with h | ⟨h1, h2⟩
  · omega
  · exact h2

theorem utf8Bytes_lt (c : Char) : ∀ b ∈ utf8Bytes c, b < 256 := by
  intro b hb
  have hc := char_toNat_lt c
  rw [utf8Bytes] at hb
  split at hb
  · simp at hb
    omega
  · split at hb
    · simp at hb
      rcases hb with rfl | rfl <;> omega
    · split at hb
      · simp at hb
        rcases hb with rfl | rfl | rfl <;> omega
      · simp at hb
        rcases hb with rfl | rfl | rfl | rfl <;> omega

theorem hexDigit_ok (n : Nat) (h : n < 16) :
    hexDigit n ≠ '/' ∧ jsWhitespace (hexDigit n) = false := by
  interval_cases n <;> exact ⟨by decide, by decide⟩

theorem percentEncodeByte_ok (b : Nat) (h : b < 256) :
    ∀ c ∈ percentEncodeByte b, c ≠ '/' ∧ jsWhitespace c = false := by
  intro c hc
  rw [percentEncodeByte] at hc
  simp only [List.mem_cons, List.mem_singleton, List.not_mem_nil, or_false] at hc
  rcases hc with rfl | rfl | rfl
  · exact ⟨by decide, by decide⟩
  · exact hexDigit_ok (b / 16) (by omega)
  · exact hexDigit_ok (b % 16) (by omega)

theorem urlPathChar_ok (c : Char) (hc : c ≠ '/') :
    ∀ d ∈ urlPathChar c, d ≠ '/' ∧ jsWhitespace d = false := by
  intro d hd
  rw [urlPathChar] at hd
  split at hd
  · simp only [List.mem_flatMap] at hd
    obtain ⟨b, hb, hdb⟩ := hd
    exact percentEncodeByte_ok b (utf8Bytes_lt c b hb) d hdb
  next hcond =>
    simp only [List.mem_singleton] at hd
    subst hd
    simp only [Bool.or_eq_true, decide_eq_true_eq, not_or] at hcond
    refine ⟨hc, ?_⟩
    simp only [jsWhitespace, Bool.or_eq_false_iff, Bool.and_eq_false_iff,
      decide_eq_false_iff_not]
    omega

theorem utf8Bytes_ne_nil (c : Char) : utf8Bytes c ≠ [] := by
  rw [utf8Bytes]
  split
  · simp
  · split
    · simp
    · split <;> simp

theorem urlPathChar_ne_nil (c : Char) : urlPathChar c ≠ [] := by
  rw [urlPathChar]
  split
  · intro hnil
    rcases hb : utf8Bytes c with _ | ⟨b, bs⟩
    · exact utf8Bytes_ne_nil c hb
    · rw [hb] at hnil
      simp only [List.flatMap_cons, percentEncodeByte] at hnil
      simp at hnil
  · simp

theorem splitOnSlash_ne_nil (l : List Char) : splitOnSlash l ≠ [] := by
  induction l with
  | nil => simp [splitOnSlash]
  | cons c rest ih =>
    rw [splitOnSlash]
    split
    · simp
    · split
      · simp
      · simp

theorem splitOnSlash_no_slash (l : List Char) : ∀ seg ∈ splitOnSlash l, '/' ∉ seg := by
  induction l with
  | nil =>
    intro seg hseg
    rw [splitOnSlash] at hseg
    simp only [List.mem_singleton] at hseg
    subst hseg
    simp
  | cons c rest ih =>
    intro seg hseg
    rw [splitOnSlash] at hseg
    split at hseg
    next hc =>
      rcases List.mem_cons.mp hseg with rfl | h
      · simp
      · exact ih seg h
    next hc =>
      split at hseg
      next hm => exact absurd hm (splitOnSlash_ne_nil rest)
      next seg0 segs hm =>
        rcases List.mem_cons.mp hseg with rfl | h
        · intro hmem
          rcases List.mem_cons.mp hmem with h1 | h1
          · exact hc h1.symm
          · exact ih seg0 (hm ▸ List.mem_cons_self _ _) h1
        · exact ih seg (hm ▸ List.mem_cons_of_mem _ h)

theorem urlPathSegments_ok (url : String) (segments : List String)
    (h : urlPathSegments url = some segments) :
    ∀ s ∈ segments, s.toList ≠ [] ∧ ∀ c ∈ s.toList, c ≠ '/' ∧ jsWhitespace c = false := by
  rw [urlPathSegments] at h
  split at h
  · exact absurd h (by simp)
  · have hseg := Option.some.inj h
    intro s hs
    rw [← hseg] at hs
    simp only [List.mem_map] at hs
    obtain ⟨seg, hsegmem, rfl⟩ := hs
    have hfil := List.mem_filter.mp hsegmem
    have hsegne : seg ≠ [] := by
      have := hfil.2
      simp only [Bool.not_eq_true'] at this
      exact List.isEmpty_eq_false.mp this
    have hnoslash : '/' ∉ seg := splitOnSlash_no_slash _ seg hfil.1
    constructor
    · rw [toList_mk]
      cases seg with
      | nil => exact absurd rfl hsegne
      | cons c cs =>
        simp only [List.flatMap_cons]
        intro hcontra
        rcases List.append_eq_nil.mp hcontra with ⟨h1, _⟩
        exact urlPathChar_ne_nil c h1
    · intro c hc
      rw [toList_mk] at hc
      simp only [List.mem_flatMap] at hc
      obtain ⟨d, hd, hcd⟩ := hc
      exact urlPathChar_ok d (fun hdd => hnoslash (hdd ▸ hd)) c hcd

theorem sshMatchParse_ok (s owner repoName : String)
    (h : sshMatchParse s = some (owner, repoName)) :
    owner.toList ≠ [] ∧ (∀ c ∈ owner.toList, c ≠ '/' ∧ jsWhitespace c = false) ∧
    (∀ c ∈ repoName.toList, c ≠ '/' ∧ jsWhitespace c = false) := by
  simp only [sshMatchParse] at h
  split at h
  · split at h
    · exact absurd h (by simp)
    · split at h
      next rest hm =>
        split at h
        next hg1 => exact absurd h (by simp)
        next hg1 =>
          split at h
          next g2 hm2 =>
            split at h
            next hg2 => exact absurd h (by simp)
            next hg2 =>
              simp only [Option.some.injEq, Prod.mk.injEq] at h
              obtain ⟨ho, hr⟩ := h
              simp only [Bool.or_eq_true, not_or, Bool.not_eq_true] at hg1 hg2
              subst ho
              subst hr
              refine ⟨?_, ?_, ?_⟩
              · rw [toList_mk]
                exact List.isEmpty_eq_false.mp hg1.1
              · intro c hc
                rw [toList_mk] at hc
                refine ⟨?_, ?_⟩
                · have := List.mem_takeWhile_imp hc
                  exact bne_iff_ne.mp this
                · have := List.any_eq_false.mp hg1.2
                  simpa using this c hc
              · intro c hc
                rw [toList_mk] at hc
                have := List.any_eq_false.mp hg2.2
                have hcc := this c hc
                simp only [Bool.or_eq_true, beq_iff_eq, not_or, Bool.not_eq_true] at hcc
                exact ⟨hcc.1, hcc.2⟩
          next => exact absurd h (by simp)
      next => exact absurd h (by simp)
  · exact absurd h (by simp)

theorem directMatchParse_ok (s owner name : String)
    (h : directMatchParse s = some (owner, name)) :
    owner.toList ≠ [] ∧ (∀ c ∈ owner.toList, c ≠ '/' ∧ jsWhitespace c = false) ∧
    (∀ c ∈ name.toList, c ≠ '/' ∧ jsWhitespace c = false) := by
  simp only [directMatchParse] at h
  split at h
  next hg1 => exact absurd h (by simp)
  next hg1 =>
    split at h
    next g2 hm2 =>
      split at h
      next hg2 => exact absurd h (by simp)
      next hg2 =>
        simp only [Option.some.injEq, Prod.mk.injEq] at h
        obtain ⟨ho, hr⟩ := h
        simp only [Bool.or_eq_true, not_or, Bool.not_eq_true] at hg1 hg2
        subst ho
        subst hr
        refine ⟨?_, ?_, ?_⟩
        · rw [toList_mk]
          exact List.isEmpty_eq_false.mp hg1.1
        · intro c hc
          rw [toList_mk] at hc
          refine ⟨?_, ?_⟩
          · have := List.mem_takeWhile_imp hc
            exact bne_iff_ne.mp this
          · have := List.any_eq_false.mp hg1.2
            simpa using this c hc
        · intro c hc
          rw [toList_mk] at hc
          have := List.any_eq_false.mp hg2.2
          have hcc := this c hc
          simp only [Bool.or_eq_true, beq_iff_eq, not_or, Bool.not_eq_true] at hcc
          exact ⟨hcc.1, hcc.2⟩
    next => exact absurd h (by simp)

theorem stripTrailingDotGit_subset (s : String) :
    ∀ c ∈ (stripTrailingDotGit s).toList, c ∈ s.toList := by
  rw [stripTrailingDotGit]
  split
  · rw [toList_mk]
    exact fun c hc => (List.take_sublist _ _).subset hc
  · exact fun c hc => hc

theorem toList_owner_name (a b : String) :
    (a ++ "/" ++ b).toList = a.toList ++ '/' :: b.toList := by
  show (a.data ++ ("/" : String).data) ++ b.data = a.data ++ '/' :: b.data
  simp

/-- Bool test of the claimed output pattern `^[^/\s]+/[^/\s]+$`, which is
exactly the success of the owner/name shorthand matcher. -/
def ownerNameShape (s : String) : Bool :=
  (directMatchParse s).isSome

/-- C6, counterexample to the claim as stated, at two inputs on which the
normalizer succeeds: "https://github.com/acme/widgets.git/" normalizes to
"acme/widgets.git" — the trailing ".git" survives because the strip runs
before URL parsing and the URL ends in '/'; and "git@h:a/.git.git"
normalizes to "a/" — one ".git" is stripped by the global trim and the SSH
branch strips the other from the matched name, leaving it empty, so the
output does not match `^[^/\s]+/[^/\s]+$`. -/
theorem normalizeRepo_counterexample :
    normalizeRepo ("https://github.com/acme/widgets.git/") = .ok ("acme/widgets.git") ∧
    endsWithDotGit ("acme/widgets.git") = true ∧
    normalizeRepo ("git@h:a/.git.git") = .ok ("a/") ∧
    ownerNameShape ("a/") = false := by
  refine ⟨by decide, by decide, by decide, by decide⟩

/-- C6 (amended: the name part may be empty — the SSH branch can strip a
matched name ".git" down to nothing — and a trailing ".git" may survive;
what always holds is the structural shape): for every input on which
`normalizeRepo` succeeds, the output is `owner ++ "/" ++ name` where the
owner is non-empty, neither part contains '/' or whitespace, and the
output contains exactly one '/' (in particular it carries no scheme
separator). -/
theorem normalizeRepo_shape (repo out : String)
    (h : normalizeRepo repo = .ok out) :
    ∃ ownerL nameL : List Char,
      out.toList = ownerL ++ '/' :: nameL ∧
      ownerL ≠ [] ∧
      (∀ c ∈ ownerL, c ≠ '/' ∧ jsWhitespace c = false) ∧
      (∀ c ∈ nameL, c ≠ '/' ∧ jsWhitespace c = false) ∧
      out.toList.count ('/') = 1 := by
  cases hurl : hasHttpPrefix (stripTrailingDotGit (jsTrim repo)) with
  | true =>
    rcases hsegs : urlPathSegments (stripTrailingDotGit (jsTrim repo)) with _ | segments
    · simp [normalizeRepo, hurl, hsegs] at h
    · rcases segments with _ | ⟨owner, segs2⟩
      · simp [normalizeRepo, hurl, hsegs] at h
      · rcases segs2 with _ | ⟨name, rest3⟩
        · simp [normalizeRepo, hurl, hsegs] at h
        · have hok : owner ++ "/" ++ name = out := by
            simpa [normalizeRepo, hurl, hsegs] using h
          have hprops := urlPathSegments_ok _ _ hsegs
          have howner := hprops owner (List.mem_cons_self _ _)
          have hname := hprops name (List.mem_cons_of_mem _ (List.mem_cons_self _ _))
          refine ⟨owner.toList, name.toList, ?_, howner.1, howner.2, hname.2, ?_⟩
          · rw [← hok]
            exact toList_owner_name owner name
          · rw [← hok, toList_owner_name]
            rw [List.count_append, List.count_cons_self,
              List.count_eq_zero.mpr (fun hc => (howner.2 '/' hc).1 rfl),
              List.count_eq_zero.mpr (fun hc => (hname.2 '/' hc).1 rfl)]
  | false =>
    rcases hssh : sshMatchParse (stripTrailingDotGit (jsTrim repo)) with _ | ⟨owner, repoName⟩
    · rcases hdir : directMatchParse (stripTrailingDotGit (jsTrim repo)) with _ | ⟨owner, name⟩
      · simp [normalizeRepo, hurl, hssh, hdir] at h
      · have hok : owner ++ "/" ++ name = out := by
          simpa [normalizeRepo, hurl, hssh, hdir] using h
        have hprops := directMatchParse_ok _ owner name hdir
        refine ⟨owner.toList, name.toList, ?_, hprops.1, hprops.2.1, hprops.2.2, ?_⟩
        · rw [← hok]
          exact toList_owner_name owner name
        · rw [← hok, toList_owner_name]
          rw [List.count_append, List.count_cons_self,
            List.count_eq_zero.mpr (fun hc => (hprops.2.1 '/' hc).1 rfl),
            List.count_eq_zero.mpr (fun hc => (hprops.2.2 '/' hc).1 rfl)]
    · have hok : owner ++ "/" ++ stripTrailingDotGit repoName = out := by
        simpa [normalizeRepo, hurl, hssh] using h
      have hprops := sshMatchParse_ok _ owner repoName hssh
      have hnm : ∀ c ∈ (stripTrailingDotGit repoName).toList,
          c ≠ '/' ∧ jsWhitespace c = false :=
        fun c hc => hprops.2.2 c (stripTrailingDotGit_subset repoName c hc)
      refine ⟨owner.toList, (stripTrailingDotGit repoName).toList, ?_, hprops.1,
        hprops.2.1, hnm, ?_⟩
      · rw [← hok]
        exact toList_owner_name owner (stripTrailingDotGit repoName)
      · rw [← hok, toList_owner_name]
        rw [List.count_append, List.count_cons_self,
          List.count_eq_zero.mpr (fun hc => (hprops.2.1 '/' hc).1 rfl),
          List.count_eq_zero.mpr (fun hc => (hnm '/' hc).1 rfl)]

/-- C6 witness: `normalizeRepo_shape` at the concrete input
"https://github.com/acme/widgets.git". -/
theorem normalizeRepo_shape_witness :
    ∃ ownerL nameL : List Char,
      ("acme/widgets" : String).toList = ownerL ++ '/' :: nameL ∧
      ownerL ≠ [] ∧
      (∀ c ∈ ownerL, c ≠ '/' ∧ jsWhitespace c = false) ∧
      (∀ c ∈ nameL, c ≠ '/' ∧ jsWhitespace c = false) ∧
      ("acme/widgets" : String).toList.count ('/') = 1 :=
  normalizeRepo_shape ("https://github.com/acme/widgets.git") ("acme/widgets") (by decide)
